import Mathlib

/-!
# Trajectory visualizer: loader and playback loop

A shallow embedding of `visualizer/main.c`:

* `parseInputData` reads a count-prefixed trajectory file into a
  `GeocoordinateList` (a length field followed by the record slots of one
  heap allocation);
* the frame loop of `main` advances `vehiclePositionIndex` and draws the
  vehicle and the trajectory polyline.

The C library is a parameter (`Libc`): the two numeric conversions of `sscanf`,
the allocator and the contents of fresh heap storage.  Integer arithmetic is
carried out in `Nat`/`Int` with the LP64 widths made explicit (`size_t` has 64
bits, `int` has 32).  Behaviour the C standard leaves undefined (a null or
out-of-bounds access, signed overflow, a zero modulus) is the outcome
`Outcome.undefined`.  An open file is the list of the lines that successive calls
of `getline` return.  Text written to the standard output and the floating point
orbital angles are not part of the embedding.
-/

namespace Visualizer

/-! ## Machine constants -/

/-- Number of values of the type `size_t`. -/
def SIZE : Nat := 2 ^ 64

/-- Largest value of the type `int`. -/
def INT_MAX : Int := 2 ^ 31 - 1

/-- The value of `sizeof(Vector3)`: three `float` fields. -/
def sizeofVector3 : Nat := 12

/-- The value of `sizeof(GeocoordinateList)`: the `size_t length` field; the
flexible array member adds nothing. -/
def sizeofGeocoordinateList : Nat := 8

/-- The value of `EXIT_FAILURE`. -/
def EXIT_FAILURE : Nat := 1

/-! ## Data model -/

/-- The raylib type `Vector3` over a type `F` of `float` values. -/
structure Vector3 (F : Type) where
  x : F
  y : F
  z : F
deriving DecidableEq, Repr

/-- The initializer `{0}`. -/
def Vector3.zero {F : Type} [Zero F] : Vector3 F := ⟨0, 0, 0⟩

/-- The struct `GeocoordinateList`: the `length` field and the record slots that
the allocation really holds (`records.length` is the capacity of the block, which
the code never compares with `length`). -/
structure GeocoordinateList (F : Type) where
  length : Nat
  records : List (Vector3 F)
deriving DecidableEq, Repr

/-- How a call ends: it returns a value, it ends the process through `exit`
with the text written to the standard error stream, or it runs into undefined
behaviour. -/
inductive Outcome (α : Type) where
  | returned (value : α)
  | exited (status : Nat) (stderr : List Char)
  | undefined
deriving DecidableEq, Repr

/-- Sequencing of two calls. -/
def Outcome.bind {α β : Type} (o : Outcome α) (f : α → Outcome β) : Outcome β :=
  match o with
  | .returned a => f a
  | .exited s e => .exited s e
  | .undefined => .undefined

/-- The C library as far as the program uses it.

* `scanSize line` is the value stored by `sscanf(line, "%zu", &n)` when that call
  returns 1, and `none` when it does not;
* `scanFloat input` is one `%f` conversion on input without leading white space:
  the converted value and the unread rest, or `none` on a matching failure;
* `malloc bytes` tells whether a request of that size is granted;
* `fresh i` is the content of record slot `i` of freshly allocated storage. -/
structure Libc (F : Type) where
  scanSize : List Char → Option Nat
  scanSize_lt : ∀ line n, scanSize line = some n → n < SIZE
  scanFloat : List Char → Option (F × List Char)
  malloc : Nat → Bool
  fresh : Nat → Vector3 F

/-! ## The scan of one data line -/

/-- The predicate `isspace` in the C locale. -/
def isspace (c : Char) : Bool :=
  c = ' ' || c = '\t' || c = '\n' || c = '\x0b' || c = '\x0c' || c = '\r'

/-- Input with its leading white space removed. -/
def skipSpace (input : List Char) : List Char := input.dropWhile isspace

/-- A directive of a `sscanf` format: an ordinary character, white space, or a
`%f` conversion into one of the three fields of the record. -/
inductive Directive where
  | lit (c : Char)
  | space
  | float (field : Fin 3)
deriving DecidableEq, Repr

/-- The format `"V(%f, %f, %f)"` with its conversions bound to `x`, `y`, `z`. -/
def recordFormat : List Directive :=
  [.lit 'V', .lit '(', .float 0, .lit ',', .space, .float 1, .lit ',', .space,
   .float 2, .lit ')']

/-- Assignment through the pointer to field number `field`. -/
def Vector3.store {F : Type} (r : Vector3 F) (field : Fin 3) (v : F) : Vector3 F :=
  match field with
  | 0 => { r with x := v }
  | 1 => { r with y := v }
  | 2 => { r with z := v }

/-- The call `sscanf(input, format, &r.x, &r.y, &r.z)`: the directives run in
order and the first one that fails ends the call; the fields converted up to
then have been stored.  The result is the number of conversions stored and the
record. -/
def sscanf {F : Type} (env : Libc F) :
    List Directive → List Char → Nat → Vector3 F → Nat × Vector3 F
  | [], _, count, r => (count, r)
  | .lit c :: ds, input, count, r =>
    match input with
    | [] => (count, r)
    | c0 :: rest => if c0 = c then sscanf env ds rest count r else (count, r)
  | .space :: ds, input, count, r => sscanf env ds (skipSpace input) count r
  | .float field :: ds, input, count, r =>
    match env.scanFloat (skipSpace input) with
    | none => (count, r)
    | some (v, rest) => sscanf env ds rest (count + 1) (r.store field v)

/-- The body of the read loop for one line: `Vector3 record = {0};` followed by
the `sscanf` call, whose return value the code drops. -/
def scanRecord {F : Type} [Zero F] (env : Libc F) (inputLine : List Char) : Vector3 F :=
  (sscanf env recordFormat inputLine 0 Vector3.zero).2

/-- Number of fields that the `sscanf` call of the read loop converts. -/
def scanCount {F : Type} [Zero F] (env : Libc F) (inputLine : List Char) : Nat :=
  (sscanf env recordFormat inputLine 0 Vector3.zero).1

/-- The pattern match of the specification: `some` point when the input matches
every directive of the pattern, the closing bracket included, and `none`
otherwise. -/
def matchPattern {F : Type} (env : Libc F) :
    List Directive → List Char → Vector3 F → Option (Vector3 F)
  | [], _, r => some r
  | .lit c :: ds, input, r =>
    match input with
    | [] => none
    | c0 :: rest => if c0 = c then matchPattern env ds rest r else none
  | .space :: ds, input, r => matchPattern env ds (skipSpace input) r
  | .float field :: ds, input, r =>
    match env.scanFloat (skipSpace input) with
    | none => none
    | some (v, rest) => matchPattern env ds rest (r.store field v)

/-- A line is well formed when it matches `V(<float>, <float>, <float>)`; the
result is its point. -/
def matchPoint {F : Type} [Zero F] (env : Libc F) (inputLine : List Char) :
    Option (Vector3 F) :=
  matchPattern env recordFormat inputLine Vector3.zero

/-! ## parseInputData -/

/-- The library function `fclose`: its argument has to point to a stream, a null
pointer is undefined behaviour. -/
def fclose {α : Type} (stream : Option α) : Outcome Unit :=
  match stream with
  | none => .undefined
  | some _ => .returned ()

/-- The text that `fprintf` writes when the file cannot be opened. -/
def cannotFindMessage (filePath : List Char) : List Char :=
  "Cannot find GPS input data file at path ".toList ++ filePath ++ ['\n']

/-- The first `getline` and the count header: `geocoordinateListLength` starts
at 0 and changes only when the conversion succeeds.  The result is the length
and the lines still unread. -/
def readHeader {F : Type} (env : Libc F) : List (List Char) → Nat × List (List Char)
  | [] => (0, [])
  | inputLine :: rest =>
    match env.scanSize inputLine with
    | some n => (n, rest)
    | none => (0, rest)

/-- The allocation: the byte count is computed in `size_t`; a null result is
dereferenced by the store to `length` (the test that follows `malloc` looks at
`parsedInputData`, never null, instead of `*parsedInputData`), and so is a
block too short for the `length` field.  The result is the fresh record slots
that fit into the block. -/
def allocate {F : Type} (env : Libc F) (geocoordinateListLength : Nat) :
    Outcome (List (Vector3 F)) :=
  let bytes := (sizeofGeocoordinateList + sizeofVector3 * geocoordinateListLength) % SIZE
  if env.malloc bytes = false then .undefined
  else if bytes < sizeofGeocoordinateList then .undefined
  else .returned ((List.range ((bytes - sizeofGeocoordinateList) / sizeofVector3)).map env.fresh)

/-- The read loop.  Each `getline` takes the next line; the loop ends at the end
of the file or when `currentRecordIndex` has reached `length`.  A store beyond
the allocated slots is undefined behaviour. -/
def readRecords {F : Type} [Zero F] (env : Libc F) (length : Nat) :
    List (List Char) → Nat → List (Vector3 F) → Outcome (List (Vector3 F))
  | [], _, records => .returned records
  | inputLine :: rest, currentRecordIndex, records =>
    if currentRecordIndex ≥ length then .returned records
    else if currentRecordIndex < records.length then
      readRecords env length rest ((currentRecordIndex + 1) % SIZE)
        (records.set currentRecordIndex (scanRecord env inputLine))
    else .undefined

/-- The function `parseInputData`.  The argument `inputData` is the result of
`fopen`: `none` when the file cannot be opened, else the lines of the file in
the order in which `getline` returns them. -/
def parseInputData {F : Type} [Zero F] (env : Libc F) (filePath : List Char)
    (inputData : Option (List (List Char))) : Outcome (GeocoordinateList F) :=
  match inputData with
  | none =>
    (fclose inputData).bind fun _ =>
      .exited EXIT_FAILURE (cannotFindMessage filePath)
  | some stream =>
    let header := readHeader env stream
    (allocate env header.1).bind fun slots =>
      (readRecords env header.1 header.2 0 slots).bind fun records =>
        .returned { length := header.1, records := records }

/-! ## The frame loop of main -/

/-- Conversion of an `int` to `size_t`. -/
def toSizeT (i : Int) : Nat := (i % (SIZE : Int)).toNat

/-- The value of `inputData->length - 1` in `size_t`. -/
def lengthMinusOne (length : Nat) : Nat := (length + SIZE - 1) % SIZE

/-- The trajectory advance of one frame.  The comparison converts the `int`
index to `size_t`; the increment is an `int` addition, undefined when it
overflows. -/
def advance (length : Nat) (vehiclePositionIndex : Int) : Outcome Int :=
  if toSizeT vehiclePositionIndex < lengthMinusOne length then
    if vehiclePositionIndex + 1 ≤ INT_MAX then .returned (vehiclePositionIndex + 1)
    else .undefined
  else .returned 0

/-- The index after a number of frames. -/
def advanceN (length : Nat) : Nat → Int → Outcome Int
  | 0, vehiclePositionIndex => .returned vehiclePositionIndex
  | frames + 1, vehiclePositionIndex =>
    (advance length vehiclePositionIndex).bind (advanceN length frames)

/-- The read `inputData->records[i]` with a `size_t` index: undefined outside
the allocated slots. -/
def readAt {F : Type} (inputData : GeocoordinateList F) (i : Nat) : Outcome (Vector3 F) :=
  match inputData.records[i]? with
  | some r => .returned r
  | none => .undefined

/-- The read `inputData->records[i]` with an `int` index. -/
def readRecord {F : Type} (inputData : GeocoordinateList F) (i : Int) : Outcome (Vector3 F) :=
  if 0 ≤ i then readAt inputData i.toNat else .undefined

/-- The index pairs of the polyline loop from `recordIndex` on.  The loop
counter stays below `length`, so its increment does not wrap. -/
def polylineIndices (length : Nat) (recordIndex : Nat) : Outcome (List (Nat × Nat)) :=
  if recordIndex < length then
    if recordIndex = lengthMinusOne length then polylineIndices length (recordIndex + 1)
    else if length = 0 then .undefined
    else
      match polylineIndices length (recordIndex + 1) with
      | .returned rest =>
        .returned ((recordIndex, (recordIndex + 1) % SIZE % length) :: rest)
      | other => other
  else .returned []
termination_by length - recordIndex

/-- The two record reads of one `DrawLine3D` call. -/
def readSegment {F : Type} (inputData : GeocoordinateList F) (segment : Nat × Nat) :
    Outcome (Vector3 F × Vector3 F) :=
  (readAt inputData segment.1).bind fun a =>
    (readAt inputData segment.2).bind fun b => .returned (a, b)

/-- The reads of a list of `DrawLine3D` calls, in order. -/
def readSegments {F : Type} (inputData : GeocoordinateList F) :
    List (Nat × Nat) → Outcome (List (Vector3 F × Vector3 F))
  | [] => .returned []
  | segment :: rest =>
    (readSegment inputData segment).bind fun s =>
      (readSegments inputData rest).bind fun ss => .returned (s :: ss)

/-- The polyline draw step: the segments handed to `DrawLine3D`. -/
def drawPolyline {F : Type} (inputData : GeocoordinateList F) :
    Outcome (List (Vector3 F × Vector3 F)) :=
  (polylineIndices inputData.length 0).bind (readSegments inputData)

/-- What one frame draws from the record list: the position of the vehicle
model and the segments of the polyline. -/
structure Scene (F : Type) where
  vehicle : Vector3 F
  segments : List (Vector3 F × Vector3 F)
deriving DecidableEq, Repr

/-- One pass of the frame loop: the trajectory advance, then the vehicle draw
and the polyline draw.  The result is the new index and the scene. -/
def frame {F : Type} (inputData : GeocoordinateList F) (vehiclePositionIndex : Int) :
    Outcome (Int × Scene F) :=
  (advance inputData.length vehiclePositionIndex).bind fun next =>
    (readRecord inputData next).bind fun vehicle =>
      (drawPolyline inputData).bind fun segments =>
        .returned (next, { vehicle := vehicle, segments := segments })

/-! ## A concrete C library -/

/-- The value of a run of decimal digits that follows the value `acc`, and the
input after the run. -/
def scanDigits : List Char → Nat → Nat × List Char
  | [], acc => (acc, [])
  | c :: rest, acc =>
    if c.isDigit then scanDigits rest (acc * 10 + (c.toNat - 48)) else (acc, c :: rest)

/-- The value that `%zu` stores for a run of digits of value `v` after the sign
`negative`: the value is negated in `size_t` after a minus sign, and a value
beyond `size_t` is stored as the largest `size_t`. -/
def storedSize (negative : Bool) (v : Nat) : Nat :=
  if v < SIZE then (if negative then (SIZE - v) % SIZE else v) else SIZE - 1

/-- The conversion `%zu` on decimal input: white space, an optional sign, then
at least one digit. -/
def decimalScanSize (inputLine : List Char) : Option Nat :=
  match skipSpace inputLine with
  | [] => none
  | c :: rest =>
    if c = '-' ∨ c = '+' then
      match rest with
      | [] => none
      | d :: rest2 =>
        if d.isDigit then some (storedSize (c = '-') (scanDigits (d :: rest2) 0).1) else none
    else if c.isDigit then some (storedSize false (scanDigits (c :: rest) 0).1)
    else none

/-- A conversion for `%f` on integral input: an optional sign, then at least one
digit.  It agrees with the C library on decimal integers of magnitude below
2 ^ 24 that no fraction or exponent follows, the only input it is used on. -/
def decimalScanFloat : List Char → Option (Int × List Char)
  | [] => none
  | c :: rest =>
    if c = '-' ∨ c = '+' then
      match rest with
      | [] => none
      | d :: rest2 =>
        if d.isDigit then
          some ((if c = '-' then -((scanDigits (d :: rest2) 0).1 : Int)
                 else ((scanDigits (d :: rest2) 0).1 : Int)),
                (scanDigits (d :: rest2) 0).2)
        else none
    else if c.isDigit then
      some (((scanDigits (c :: rest) 0).1 : Int), (scanDigits (c :: rest) 0).2)
    else none

/-- The largest request that the allocator of `decimalLibc` grants, the value of
`PTRDIFF_MAX`. -/
def PTRDIFF_MAX : Nat := 2 ^ 63 - 1

/-- A C library over integral values: its allocator grants the requests of up to
`PTRDIFF_MAX` bytes and its fresh storage holds the value `junk` in every
field. -/
def decimalLibc (junk : Int) : Libc Int where
  scanSize := decimalScanSize
  scanSize_lt := by
    intro inputLine n h
    have hstored : ∀ (negative : Bool) (v : Nat), storedSize negative v < SIZE := by
      intro negative v
      unfold storedSize
      split
      · split
        · exact Nat.mod_lt _ (by decide)
        · assumption
      · decide
    unfold decimalScanSize at h
    split at h
    · cases h
    · split at h
      · split at h
        · cases h
        · split at h
          · cases h
            exact hstored _ _
          · cases h
      · split at h
        · cases h
          exact hstored _ _
        · cases h
  scanFloat := decimalScanFloat
  malloc := fun bytes => decide (bytes ≤ PTRDIFF_MAX)
  fresh := fun _ => ⟨junk, junk, junk⟩

/-! ## The count header in the words of the specification -/

/-- The count header as the specification words it, a non-negative decimal
integer: white space and then at least one digit, without a sign. -/
def specCount (inputLine : List Char) : Option Nat :=
  match skipSpace inputLine with
  | [] => none
  | c :: rest => if c.isDigit then some (scanDigits (c :: rest) 0).1 else none

/-! ## Lemmas on sequencing -/

theorem Outcome.bind_returned {α β : Type} (a : α) (f : α → Outcome β) :
    (Outcome.returned a).bind f = f a := rfl

theorem Outcome.bind_exited {α β : Type} (status : Nat) (e : List Char) (f : α → Outcome β) :
    (Outcome.exited status e : Outcome α).bind f = .exited status e := rfl

theorem Outcome.bind_undefined {α β : Type} (f : α → Outcome β) :
    (Outcome.undefined : Outcome α).bind f = .undefined := rfl

/-! ## Lemmas on the line scan -/

theorem sscanf_of_matchPattern {F : Type} (env : Libc F) (ds : List Directive) :
    ∀ (input : List Char) (count : Nat) (r p : Vector3 F),
      matchPattern env ds input r = some p → (sscanf env ds input count r).2 = p := by
  induction ds with
  | nil =>
    intro input count r p h
    simpa [matchPattern, sscanf] using h
  | cons d ds ih =>
    intro input count r p h
    cases d with
    | lit c =>
      cases input with
      | nil => simp [matchPattern] at h
      | cons c0 rest =>
        by_cases hc : c0 = c
        · simp only [matchPattern, hc, if_true] at h
          simp only [sscanf, hc, if_true]
          exact ih rest count r p h
        · simp [matchPattern, hc] at h
    | space =>
      simp only [matchPattern] at h
      simp only [sscanf]
      exact ih _ count r p h
    | float field =>
      simp only [matchPattern] at h
      simp only [sscanf]
      cases hs : env.scanFloat (skipSpace input) with
      | none => simp [hs] at h
      | some vr =>
        obtain ⟨v, rest⟩ := vr
        simp only [hs] at h
        exact ih rest (count + 1) _ p h

theorem sscanf_count_ge {F : Type} (env : Libc F) (ds : List Directive) :
    ∀ (input : List Char) (count : Nat) (r : Vector3 F),
      count ≤ (sscanf env ds input count r).1 := by
  induction ds with
  | nil => intro input count r; simp [sscanf]
  | cons d ds ih =>
    intro input count r
    cases d with
    | lit c =>
      cases input with
      | nil => simp [sscanf]
      | cons c0 rest =>
        by_cases hc : c0 = c
        · simp only [sscanf, hc, if_true]
          exact ih rest count r
        · simp [sscanf, hc]
    | space =>
      simp only [sscanf]
      exact ih _ count r
    | float field =>
      simp only [sscanf]
      cases hs : env.scanFloat (skipSpace input) with
      | none => simp
      | some vr =>
        obtain ⟨v, rest⟩ := vr
        exact le_trans (Nat.le_succ count) (ih rest (count + 1) _)

theorem sscanf_unchanged {F : Type} (env : Libc F) (ds : List Directive) :
    ∀ (input : List Char) (count : Nat) (r : Vector3 F),
      (sscanf env ds input count r).1 = count → (sscanf env ds input count r).2 = r := by
  induction ds with
  | nil => intro input count r _; simp [sscanf]
  | cons d ds ih =>
    intro input count r h
    cases d with
    | lit c =>
      cases input with
      | nil => simp [sscanf]
      | cons c0 rest =>
        by_cases hc : c0 = c
        · simp only [sscanf, hc, if_true] at h ⊢
          exact ih rest count r h
        · simp [sscanf, hc]
    | space =>
      simp only [sscanf] at h ⊢
      exact ih _ count r h
    | float field =>
      simp only [sscanf] at h ⊢
      cases hs : env.scanFloat (skipSpace input) with
      | none => simp
      | some vr =>
        obtain ⟨v, rest⟩ := vr
        simp only [hs] at h
        have := sscanf_count_ge env ds rest (count + 1) (r.store field v)
        omega

theorem scanRecord_of_matchPoint {F : Type} [Zero F] (env : Libc F) (inputLine : List Char)
    (p : Vector3 F) (h : matchPoint env inputLine = some p) : scanRecord env inputLine = p :=
  sscanf_of_matchPattern env recordFormat inputLine 0 Vector3.zero p h

theorem scanRecord_of_scanCount_zero {F : Type} [Zero F] (env : Libc F)
    (inputLine : List Char) (h : scanCount env inputLine = 0) :
    scanRecord env inputLine = Vector3.zero :=
  sscanf_unchanged env recordFormat inputLine 0 Vector3.zero h

theorem skipSpace_skipSpace (input : List Char) :
    skipSpace (skipSpace input) = skipSpace input := by
  unfold skipSpace
  exact List.dropWhile_idempotent isspace input

/-- A comma directive, white space and a conversion that do not all succeed end
the call. -/
theorem sscanf_comma_float_stop {F : Type} (env : Libc F) (ds : List Directive)
    (field : Fin 3) (input : List Char) (count : Nat) (r : Vector3 F)
    (h : (∀ rest, input ≠ ',' :: rest) ∨
      ∃ rest, input = ',' :: rest ∧ env.scanFloat (skipSpace rest) = none) :
    sscanf env (.lit ',' :: .space :: .float field :: ds) input count r = (count, r) := by
  rcases h with h | ⟨rest, rfl, hf⟩
  · cases input with
    | nil => simp only [sscanf]
    | cons c0 rest =>
      have hc : ¬ (c0 = ',') := by
        intro hc
        exact h rest (by rw [hc])
      simp only [sscanf, hc, if_false]
  · simp only [sscanf, if_true, skipSpace_skipSpace, hf]

/-- A comma directive, white space and a conversion that succeed store the
field and go on. -/
theorem sscanf_comma_float_go {F : Type} (env : Libc F) (ds : List Directive)
    (field : Fin 3) (input after : List Char) (v : F) (count : Nat) (r : Vector3 F)
    (hf : env.scanFloat (skipSpace input) = some (v, after)) :
    sscanf env (.lit ',' :: .space :: .float field :: ds) (',' :: input) count r
      = sscanf env ds after (count + 1) (r.store field v) := by
  simp only [sscanf, if_true, skipSpace_skipSpace, hf]

theorem sscanf_last_lit {F : Type} (env : Libc F) (c : Char) (input : List Char)
    (count : Nat) (r : Vector3 F) : (sscanf env [.lit c] input count r).2 = r := by
  cases input with
  | nil => simp only [sscanf]
  | cons c0 rest =>
    by_cases hc : c0 = c
    · simp only [sscanf, hc, if_true]
    · simp only [sscanf, hc, if_false]

theorem scanRecord_open {F : Type} [Zero F] (env : Libc F) (rest after : List Char) (x : F)
    (hx : env.scanFloat (skipSpace rest) = some (x, after)) :
    scanRecord env ('V' :: '(' :: rest)
      = (sscanf env [.lit ',', .space, .float 1, .lit ',', .space, .float 2, .lit ')']
          after 1 ⟨x, 0, 0⟩).2 := by
  simp only [scanRecord, recordFormat, sscanf, if_true, hx]
  rfl

theorem scanRecord_no_field {F : Type} [Zero F] (env : Libc F) (inputLine : List Char)
    (h : (∀ rest, inputLine ≠ 'V' :: '(' :: rest) ∨
      ∃ rest, inputLine = 'V' :: '(' :: rest ∧ env.scanFloat (skipSpace rest) = none) :
    scanRecord env inputLine = Vector3.zero := by
  rcases h with h | ⟨rest, rfl, hf⟩
  · cases inputLine with
    | nil => simp only [scanRecord, recordFormat, sscanf]
    | cons c0 t =>
      by_cases hV : c0 = 'V'
      · cases t with
        | nil => simp only [scanRecord, recordFormat, sscanf, hV, if_true]
        | cons c1 t2 =>
          have hP : ¬ (c1 = '(') := by
            intro hP
            exact h t2 (by rw [hV, hP])
          simp only [scanRecord, recordFormat, sscanf, hV, if_true, hP, if_false]
      · simp only [scanRecord, recordFormat, sscanf, hV, if_false]
  · simp only [scanRecord, recordFormat, sscanf, if_true, hf]

theorem scanRecord_one_field {F : Type} [Zero F] (env : Libc F) (rest r1 : List Char) (x : F)
    (hx : env.scanFloat (skipSpace rest) = some (x, r1))
    (h : (∀ r2, r1 ≠ ',' :: r2) ∨
      ∃ r2, r1 = ',' :: r2 ∧ env.scanFloat (skipSpace r2) = none) :
    scanRecord env ('V' :: '(' :: rest) = ⟨x, 0, 0⟩ := by
  rw [scanRecord_open env rest r1 x hx, sscanf_comma_float_stop env _ 1 r1 1 _ h]

theorem scanRecord_two_fields {F : Type} [Zero F] (env : Libc F) (rest r2 r3 : List Char)
    (x y : F)
    (hx : env.scanFloat (skipSpace rest) = some (x, ',' :: r2))
    (hy : env.scanFloat (skipSpace r2) = some (y, r3))
    (h : (∀ r4, r3 ≠ ',' :: r4) ∨
      ∃ r4, r3 = ',' :: r4 ∧ env.scanFloat (skipSpace r4) = none) :
    scanRecord env ('V' :: '(' :: rest) = ⟨x, y, 0⟩ := by
  rw [scanRecord_open env rest _ x hx, sscanf_comma_float_go env _ 1 r2 r3 y 1 _ hy,
    sscanf_comma_float_stop env _ 2 r3 2 _ h]
  rfl

theorem scanRecord_three_fields {F : Type} [Zero F] (env : Libc F)
    (rest r2 r4 r5 : List Char) (x y z : F)
    (hx : env.scanFloat (skipSpace rest) = some (x, ',' :: r2))
    (hy : env.scanFloat (skipSpace r2) = some (y, ',' :: r4))
    (hz : env.scanFloat (skipSpace r4) = some (z, r5)) :
    scanRecord env ('V' :: '(' :: rest) = ⟨x, y, z⟩ := by
  rw [scanRecord_open env rest _ x hx, sscanf_comma_float_go env _ 1 r2 _ y 1 _ hy,
    sscanf_comma_float_go env _ 2 r4 r5 z 2 _ hz, sscanf_last_lit]
  rfl

/-! ## Lemmas on parseInputData -/

theorem readRecords_spec {F : Type} [Zero F] (env : Libc F) (length : Nat)
    (hlen : length < SIZE) :
    ∀ (lines : List (List Char)) (currentRecordIndex : Nat) (records : List (Vector3 F)),
      length ≤ records.length →
      ∃ out, readRecords env length lines currentRecordIndex records = .returned out ∧
        out.length = records.length ∧
        ∀ j, out[j]? =
          if currentRecordIndex ≤ j ∧ j < length ∧ j - currentRecordIndex < lines.length then
            (lines[j - currentRecordIndex]?).map (scanRecord env)
          else records[j]? := by
  intro lines
  induction lines with
  | nil =>
    intro idx records _
    exact ⟨records, by simp [readRecords], rfl, by intro j; simp⟩
  | cons inputLine rest ih =>
    intro idx records hcap
    by_cases hge : idx ≥ length
    · refine ⟨records, by simp [readRecords, hge], rfl, ?_⟩
      intro j
      have hno : ¬ (idx ≤ j ∧ j < length ∧ j - idx < (inputLine :: rest).length) := by omega
      rw [if_neg hno]
    · have hlt : idx < records.length := by omega
      have hmod : (idx + 1) % SIZE = idx + 1 := Nat.mod_eq_of_lt (by omega)
      obtain ⟨out, hout, hlen2, hget⟩ :=
        ih (idx + 1) (records.set idx (scanRecord env inputLine)) (by simpa using hcap)
      refine ⟨out, ?_, by simpa using hlen2, ?_⟩
      · simp only [readRecords, hge, if_false, hlt, if_true, hmod]
        exact hout
      · intro j
        rw [hget j]
        by_cases h1 : idx + 1 ≤ j ∧ j < length ∧ j - (idx + 1) < rest.length
        · have h2 : idx ≤ j ∧ j < length ∧ j - idx < (inputLine :: rest).length := by
            simp only [List.length_cons]; omega
          have h3 : j - idx = (j - (idx + 1)) + 1 := by omega
          rw [if_pos h1, if_pos h2, h3, List.getElem?_cons_succ]
        · rw [if_neg h1, List.getElem?_set]
          by_cases hj : idx = j
          · subst hj
            have h2 : idx ≤ idx ∧ idx < length ∧ idx - idx < (inputLine :: rest).length := by
              simp only [List.length_cons]; omega
            rw [if_pos h2]
            simp [hlt]
          · have h2 : ¬ (idx ≤ j ∧ j < length ∧ j - idx < (inputLine :: rest).length) := by
              simp only [List.length_cons]; omega
            rw [if_neg h2, if_neg hj]

theorem allocate_fits {F : Type} (env : Libc F) (n : Nat)
    (hfit : sizeofGeocoordinateList + sizeofVector3 * n < SIZE)
    (hmalloc : env.malloc (sizeofGeocoordinateList + sizeofVector3 * n) = true) :
    allocate env n = .returned ((List.range n).map env.fresh) := by
  unfold allocate
  simp only [Nat.mod_eq_of_lt hfit, hmalloc]
  simp [sizeofGeocoordinateList, sizeofVector3]

/-- The result of `parseInputData` when the header converts to `n` and the
allocation has room for `n` records: the length is `n`, there are `n` slots,
slot `j` holds the scan of data line `j` when the file has that line and the
fresh content of the block when it has not. -/
theorem parseInputData_spec {F : Type} [Zero F] (env : Libc F) (filePath : List Char)
    (header : List Char) (data : List (List Char)) (n : Nat)
    (hheader : env.scanSize header = some n)
    (hfit : sizeofGeocoordinateList + sizeofVector3 * n < SIZE)
    (hmalloc : env.malloc (sizeofGeocoordinateList + sizeofVector3 * n) = true) :
    ∃ records, parseInputData env filePath (some (header :: data)) = .returned ⟨n, records⟩ ∧
      records.length = n ∧
      ∀ j, j < n → records[j]? =
        some (match data[j]? with
          | some inputLine => scanRecord env inputLine
          | none => env.fresh j) := by
  have hn : n < SIZE := env.scanSize_lt header n hheader
  obtain ⟨out, hout, hlen, hget⟩ :=
    readRecords_spec env n hn data 0 ((List.range n).map env.fresh) (by simp)
  refine ⟨out, ?_, by simpa using hlen, ?_⟩
  · simp only [parseInputData, readHeader, hheader, allocate_fits env n hfit hmalloc,
      Outcome.bind, hout]
  · intro j hj
    rw [hget j]
    by_cases hd : j < data.length
    · simp [hj, hd]
    · have hnone : data[j]? = none := by simp; omega
      simp [hd, hnone, hj, List.getElem?_range]

/-- A first data line that finds no record slot: the store is out of bounds. -/
theorem parseInputData_no_slot {F : Type} [Zero F] (env : Libc F) (filePath : List Char)
    (header inputLine : List Char) (rest : List (List Char)) (n : Nat)
    (hheader : env.scanSize header = some n) (hpos : 0 < n)
    (halloc : allocate env n = .returned []) :
    parseInputData env filePath (some (header :: inputLine :: rest)) = .undefined := by
  have hge : ¬ (0 ≥ n) := by omega
  simp only [parseInputData, readHeader, hheader, halloc, Outcome.bind, readRecords, hge,
    if_false, List.length_nil, lt_irrefl]

theorem replicate_of_pos {α : Type} (a : α) (n : Nat) (hpos : 0 < n) :
    List.replicate n a = a :: List.replicate (n - 1) a := by
  cases n with
  | zero => omega
  | succ k => rfl

/-- A list that `parseInputData` returns has the converted header as its
`length`, whatever the allocator does. -/
theorem parseInputData_returned_length {F : Type} [Zero F] (env : Libc F)
    (filePath : List Char) (header : List Char) (data : List (List Char)) (n : Nat)
    (l : GeocoordinateList F) (hheader : env.scanSize header = some n)
    (hret : parseInputData env filePath (some (header :: data)) = .returned l) :
    l.length = n := by
  simp only [parseInputData, readHeader, hheader] at hret
  cases halloc : allocate env n with
  | returned slots =>
    rw [halloc, Outcome.bind_returned] at hret
    cases hread : readRecords env n data 0 slots with
    | returned records =>
      rw [hread, Outcome.bind_returned] at hret
      injection hret with hret
      rw [← hret]
    | exited st e => rw [hread, Outcome.bind_exited] at hret; cases hret
    | undefined => rw [hread, Outcome.bind_undefined] at hret; cases hret
  | exited st e => rw [halloc, Outcome.bind_exited] at hret; cases hret
  | undefined => rw [halloc, Outcome.bind_undefined] at hret; cases hret

/-! ## The loader: header count and record slots -/

/-- C1 (counterexample).  A file that consists of the header `4611686018427387904`
(2 ^ 62) alone: the byte count 8 + 12 * 2 ^ 62 wraps to 8 in `size_t`, so the
list returned has `length` 2 ^ 62 and room for no record at all. -/
theorem parseInputData_count_wraps :
    (decimalLibc 0).scanSize "4611686018427387904\n".toList = some (2 ^ 62) ∧
    ∃ l, parseInputData (decimalLibc 0) "gps.txt".toList
          (some ["4611686018427387904\n".toList]) = .returned l ∧
      l.length = 2 ^ 62 ∧ l.records.length = 0 := by
  refine ⟨by decide, ⟨2 ^ 62, []⟩, by decide, rfl, rfl⟩

/-- C1 (amended).  When the header converts to `n`, the byte count
8 + 12 * n does not wrap in `size_t` and the allocation is granted, then for
every list of data lines `parseInputData` returns a list whose `length` field is
`n` and which holds exactly `n` records. -/
theorem parseInputData_count {F : Type} [Zero F] (env : Libc F) (filePath : List Char)
    (header : List Char) (data : List (List Char)) (n : Nat)
    (hheader : env.scanSize header = some n)
    (hfit : sizeofGeocoordinateList + sizeofVector3 * n < SIZE)
    (hmalloc : env.malloc (sizeofGeocoordinateList + sizeofVector3 * n) = true) :
    ∃ l, parseInputData env filePath (some (header :: data)) = .returned l ∧
      l.length = n ∧ l.records.length = n := by
  obtain ⟨records, hret, hlen, _⟩ :=
    parseInputData_spec env filePath header data n hheader hfit hmalloc
  exact ⟨⟨n, records⟩, hret, rfl, hlen⟩

/-- C1 (witness).  Header 2 followed by three data lines. -/
theorem parseInputData_count_witness :
    (decimalLibc 0).scanSize "2\n".toList = some 2 ∧
    sizeofGeocoordinateList + sizeofVector3 * 2 < SIZE ∧
    (decimalLibc 0).malloc (sizeofGeocoordinateList + sizeofVector3 * 2) = true ∧
    ∃ l, parseInputData (decimalLibc 0) "gps.txt".toList
          (some ("2\n".toList :: ["V(1, 2, 3)\n".toList, "oops\n".toList, "V(7, 8, 9)\n".toList]))
            = .returned l ∧
      l.length = 2 ∧ l.records.length = 2 :=
  ⟨by decide, by decide, rfl,
    parseInputData_count (decimalLibc 0) "gps.txt".toList "2\n".toList
      ["V(1, 2, 3)\n".toList, "oops\n".toList, "V(7, 8, 9)\n".toList] 2
      (by decide) (by decide) rfl⟩

/-- C2 (counterexample).  Header 2 ^ 62 followed by 2 ^ 62 well-formed lines: the
allocation holds no record slot (see C1), so the store of the first record is out
of bounds and the call has no defined result. -/
theorem parseInputData_well_formed_wraps :
    (decimalLibc 0).scanSize "4611686018427387904\n".toList = some (2 ^ 62) ∧
    (List.replicate (2 ^ 62) "V(1, 2, 3)\n".toList).length = 2 ^ 62 ∧
    (∀ inputLine ∈ List.replicate (2 ^ 62) "V(1, 2, 3)\n".toList,
      matchPoint (decimalLibc 0) inputLine = some ⟨1, 2, 3⟩) ∧
    parseInputData (decimalLibc 0) "gps.txt".toList
      (some ("4611686018427387904\n".toList :: List.replicate (2 ^ 62) "V(1, 2, 3)\n".toList))
        = .undefined := by
  refine ⟨by decide, List.length_replicate _ _, ?_, ?_⟩
  · intro inputLine h
    rw [List.eq_of_mem_replicate h]
    decide
  · rw [replicate_of_pos _ (2 ^ 62) (Nat.pos_pow_of_pos 62 (by decide))]
    exact parseInputData_no_slot (decimalLibc 0) _ _ _ _ (2 ^ 62) (by decide)
      (Nat.pos_pow_of_pos 62 (by decide)) (by decide)

/-- C2 (amended).  When the header converts to the number `n` of the lines
`lines`, every one of them is well formed with the points `points` in file
order, the byte count 8 + 12 * n does not wrap and the allocation is granted,
then `parseInputData` returns exactly the list of length `n` with these points,
point `i` at index `i`, whatever lines `extra` follow the first `n`. -/
theorem parseInputData_well_formed {F : Type} [Zero F] (env : Libc F) (filePath : List Char)
    (header : List Char) (lines extra : List (List Char)) (points : List (Vector3 F))
    (hheader : env.scanSize header = some lines.length)
    (hfit : sizeofGeocoordinateList + sizeofVector3 * lines.length < SIZE)
    (hmalloc : env.malloc (sizeofGeocoordinateList + sizeofVector3 * lines.length) = true)
    (hwf : lines.map (matchPoint env) = points.map some) :
    parseInputData env filePath (some (header :: (lines ++ extra)))
      = .returned ⟨lines.length, points⟩ := by
  obtain ⟨records, hret, hlen, hget⟩ :=
    parseInputData_spec env filePath header (lines ++ extra) lines.length hheader hfit hmalloc
  have hplen : points.length = lines.length := by
    have := congrArg List.length hwf
    simpa using this.symm
  have hrec : records = points := by
    apply List.ext_getElem?
    intro j
    by_cases hj : j < lines.length
    · rw [hget j hj]
      have hline : (lines ++ extra)[j]? = some lines[j] := by
        rw [List.getElem?_append_left hj, List.getElem?_eq_getElem hj]
      have hpt : (lines.map (matchPoint env))[j]? = (points.map some)[j]? := by rw [hwf]
      rw [List.getElem?_map, List.getElem?_map, List.getElem?_eq_getElem hj,
        List.getElem?_eq_getElem (by omega : j < points.length)] at hpt
      simp only [Option.map_some'] at hpt
      rw [hline, List.getElem?_eq_getElem (by omega : j < points.length)]
      simp only
      rw [scanRecord_of_matchPoint env lines[j] points[j] (Option.some.inj hpt)]
    · rw [List.getElem?_eq_none (by omega), List.getElem?_eq_none (by omega)]
  rw [hret, hrec]

/-- C2 (witness).  Header 3 and three well-formed lines give those three points
at the indices 0, 1, 2; a fourth line changes nothing. -/
theorem parseInputData_well_formed_witness :
    (decimalLibc 0).scanSize "3\n".toList = some 3 ∧
    ["V(1, 2, 3)\n".toList, "V(4,5,6)\n".toList, "V(-7, 8,   9)\n".toList].map
        (matchPoint (decimalLibc 0))
      = [(⟨1, 2, 3⟩ : Vector3 Int), ⟨4, 5, 6⟩, ⟨-7, 8, 9⟩].map some ∧
    parseInputData (decimalLibc 0) "gps.txt".toList
      (some ("3\n".toList ::
        (["V(1, 2, 3)\n".toList, "V(4,5,6)\n".toList, "V(-7, 8,   9)\n".toList]
          ++ ["V(10, 11, 12)\n".toList])))
      = .returned ⟨3, [⟨1, 2, 3⟩, ⟨4, 5, 6⟩, ⟨-7, 8, 9⟩]⟩ :=
  ⟨by decide, by decide,
    parseInputData_well_formed (decimalLibc 0) "gps.txt".toList "3\n".toList
      ["V(1, 2, 3)\n".toList, "V(4,5,6)\n".toList, "V(-7, 8,   9)\n".toList]
      ["V(10, 11, 12)\n".toList] [⟨1, 2, 3⟩, ⟨4, 5, 6⟩, ⟨-7, 8, 9⟩]
      (by decide) (by decide) rfl (by decide)⟩

/-- C3 (the code at the failing input).  Header 5 with two data lines, on a heap
whose fresh storage holds the value 7: the list has five records, and the records
at the indices 2 to 4 are what the allocator handed out, not (0,0,0). -/
theorem parseInputData_short_file_uninitialised :
    parseInputData (decimalLibc 7) "gps.txt".toList
      (some ["5\n".toList, "V(1, 2, 3)\n".toList, "V(4, 5, 6)\n".toList])
      = .returned ⟨5, [⟨1, 2, 3⟩, ⟨4, 5, 6⟩, ⟨7, 7, 7⟩, ⟨7, 7, 7⟩, ⟨7, 7, 7⟩]⟩ := by
  decide

/-- C4 (counterexample).  The line `V(1, x, 3)` does not match the pattern: its
first number converts and its second does not.  Record 0 is then (1,0,0), not
(0,0,0); the line after it is parsed into index 1. -/
theorem parseInputData_leading_fields_kept :
    matchPoint (decimalLibc 0) "V(1, x, 3)\n".toList = none ∧
    parseInputData (decimalLibc 0) "gps.txt".toList
      (some ["2\n".toList, "V(1, x, 3)\n".toList, "V(4, 5, 6)\n".toList])
      = .returned ⟨2, [⟨1, 0, 0⟩, ⟨4, 5, 6⟩]⟩ ∧
    (⟨1, 0, 0⟩ : Vector3 Int) ≠ Vector3.zero := by
  decide

/-- C4 (amended).  With the header converted to `n`, no wrap of the byte count
and a granted allocation, take a data line at a position `i` below `n`.  Record
`i` is the zero record overwritten by the fields that `sscanf` converts before
its first mismatch:

* (0,0,0) when the line does not begin with `V(` or no number follows there;
* (x,0,0) when the first number `x` converts and then the comma or the second
  number is missing;
* (x,y,0) when two numbers convert and then the comma or the third number is
  missing;
* (x,y,z) when three numbers convert, with or without the closing bracket.

Every data line below `n` is parsed into its own index, and putting any other
line in place of line `i` changes no record but record `i`. -/
theorem parseInputData_malformed_line {F : Type} [Zero F] (env : Libc F)
    (filePath : List Char) (header : List Char) (lines : List (List Char)) (n i : Nat)
    (replacement : List Char)
    (hheader : env.scanSize header = some n)
    (hfit : sizeofGeocoordinateList + sizeofVector3 * n < SIZE)
    (hmalloc : env.malloc (sizeofGeocoordinateList + sizeofVector3 * n) = true)
    (hi : i < n) (hline : i < lines.length) :
    ∃ l l2, parseInputData env filePath (some (header :: lines)) = .returned l ∧
      parseInputData env filePath (some (header :: lines.set i replacement)) = .returned l2 ∧
      l.records[i]? = some (scanRecord env lines[i]) ∧
      (scanCount env lines[i] = 0 → l.records[i]? = some Vector3.zero) ∧
      (∀ j, j ≠ i → l2.records[j]? = l.records[j]?) ∧
      (∀ j (hj : j < lines.length), j < n → l.records[j]? = some (scanRecord env lines[j])) ∧
      (((∀ rest, lines[i] ≠ 'V' :: '(' :: rest) ∨
          ∃ rest, lines[i] = 'V' :: '(' :: rest ∧ env.scanFloat (skipSpace rest) = none) →
        l.records[i]? = some ⟨0, 0, 0⟩) ∧
      (∀ rest r1 x, lines[i] = 'V' :: '(' :: rest →
        env.scanFloat (skipSpace rest) = some (x, r1) →
        ((∀ r2, r1 ≠ ',' :: r2) ∨
          ∃ r2, r1 = ',' :: r2 ∧ env.scanFloat (skipSpace r2) = none) →
        l.records[i]? = some ⟨x, 0, 0⟩) ∧
      (∀ rest r2 r3 x y, lines[i] = 'V' :: '(' :: rest →
        env.scanFloat (skipSpace rest) = some (x, ',' :: r2) →
        env.scanFloat (skipSpace r2) = some (y, r3) →
        ((∀ r4, r3 ≠ ',' :: r4) ∨
          ∃ r4, r3 = ',' :: r4 ∧ env.scanFloat (skipSpace r4) = none) →
        l.records[i]? = some ⟨x, y, 0⟩) ∧
      (∀ rest r2 r4 r5 x y z, lines[i] = 'V' :: '(' :: rest →
        env.scanFloat (skipSpace rest) = some (x, ',' :: r2) →
        env.scanFloat (skipSpace r2) = some (y, ',' :: r4) →
        env.scanFloat (skipSpace r4) = some (z, r5) →
        l.records[i]? = some ⟨x, y, z⟩) := by
  obtain ⟨records, hret, hlen, hget⟩ :=
    parseInputData_spec env filePath header lines n hheader hfit hmalloc
  obtain ⟨records2, hret2, hlen2, hget2⟩ :=
    parseInputData_spec env filePath header (lines.set i replacement) n hheader hfit hmalloc
  have hall : ∀ j (hj : j < lines.length), j < n →
      records[j]? = some (scanRecord env lines[j]) := by
    intro j hj hjn
    rw [hget j hjn, List.getElem?_eq_getElem hj]
  have hrec : records[i]? = some (scanRecord env lines[i]) := hall i hline hi
  refine ⟨⟨n, records⟩, ⟨n, records2⟩, hret, hret2, hrec, ?_, ?_, hall, ?_, ?_, ?_, ?_⟩
  · intro hzero
    show records[i]? = some Vector3.zero
    rw [hrec, scanRecord_of_scanCount_zero env lines[i] hzero]
  · intro j hji
    show records2[j]? = records[j]?
    by_cases hjn : j < n
    · rw [hget j hjn, hget2 j hjn, List.getElem?_set_ne (Ne.symm hji)]
    · rw [List.getElem?_eq_none (by omega), List.getElem?_eq_none (by omega)]
  · intro h
    show records[i]? = some ⟨0, 0, 0⟩
    rw [hrec, scanRecord_no_field env lines[i] h]
    rfl
  · intro rest r1 x hshape hx h
    show records[i]? = some ⟨x, 0, 0⟩
    rw [hrec, hshape, scanRecord_one_field env rest r1 x hx h]
  · intro rest r2 r3 x y hshape hx hy h
    show records[i]? = some ⟨x, y, 0⟩
    rw [hrec, hshape, scanRecord_two_fields env rest r2 r3 x y hx hy h]
  · intro rest r2 r4 r5 x y z hshape hx hy hz
    show records[i]? = some ⟨x, y, z⟩
    rw [hrec, hshape, scanRecord_three_fields env rest r2 r4 r5 x y z hx hy hz]

/-- C4 (witness).  Header 2, the line `V(1, x, 3)` at position 0 and a
well-formed line after it: record 0 is (1,0,0), and a well-formed line in
place of line 0 leaves record 1 as it is. -/
theorem parseInputData_malformed_line_witness :
    (decimalLibc 0).scanSize "2\n".toList = some 2 ∧
    sizeofGeocoordinateList + sizeofVector3 * 2 < SIZE ∧
    (decimalLibc 0).malloc (sizeofGeocoordinateList + sizeofVector3 * 2) = true ∧
    0 < 2 ∧ 0 < ["V(1, x, 3)\n".toList, "V(4, 5, 6)\n".toList].length ∧
    ∃ l l2, parseInputData (decimalLibc 0) "gps.txt".toList
        (some ("2\n".toList :: ["V(1, x, 3)\n".toList, "V(4, 5, 6)\n".toList])) = .returned l ∧
      parseInputData (decimalLibc 0) "gps.txt".toList
        (some ("2\n".toList ::
          ["V(1, x, 3)\n".toList, "V(4, 5, 6)\n".toList].set 0 "V(1, 2, 3)\n".toList))
        = .returned l2 ∧
      l.records[0]? = some ⟨1, 0, 0⟩ ∧
      (∀ j, j ≠ 0 → l2.records[j]? = l.records[j]?) := by
  obtain ⟨l, l2, h1, h2, _, _, hother, _, _, hone, _, _⟩ :=
    parseInputData_malformed_line (decimalLibc 0) "gps.txt".toList "2\n".toList
      ["V(1, x, 3)\n".toList, "V(4, 5, 6)\n".toList] 2 0 "V(1, 2, 3)\n".toList
      (by decide) (by decide) rfl (by decide) (by decide)
  exact ⟨by decide, by decide, rfl, by decide, by decide, l, l2, h1, h2,
    hone "1, x, 3)\n".toList ", x, 3)\n".toList 1 (by decide) (by decide)
      (Or.inr ⟨" x, 3)\n".toList, by decide, by decide⟩),
    hother⟩

/-- C5 (counterexample).  The header `-1` is no non-negative integer, yet `%zu`
converts it, to 2 ^ 64 - 1.  The byte count wraps to 2 ^ 64 - 4, the allocator
refuses it, and the store to `length` goes through the null result: the call has
no defined result.  Whatever the allocator does with that header, a list that
the call returns has `length` 2 ^ 64 - 1, not 0. -/
theorem parseInputData_signed_header :
    specCount "-1\n".toList = none ∧
    (decimalLibc 0).scanSize "-1\n".toList = some (2 ^ 64 - 1) ∧
    (sizeofGeocoordinateList + sizeofVector3 * (2 ^ 64 - 1)) % SIZE = 2 ^ 64 - 4 ∧
    (decimalLibc 0).malloc (2 ^ 64 - 4) = false ∧
    parseInputData (decimalLibc 0) "gps.txt".toList
      (some ["-1\n".toList, "V(1, 2, 3)\n".toList]) = .undefined ∧
    (∀ (env : Libc Int) (l : GeocoordinateList Int),
      env.scanSize "-1\n".toList = some (2 ^ 64 - 1) →
      parseInputData env "gps.txt".toList (some ["-1\n".toList, "V(1, 2, 3)\n".toList])
        = .returned l →
      l.length ≠ 0) := by
  refine ⟨by decide, by decide, by decide, by decide, by decide, ?_⟩
  intro env l hheader hret
  rw [parseInputData_returned_length env _ _ _ (2 ^ 64 - 1) l hheader hret]
  decide

/-- C5 (amended).  When the `%zu` conversion of the first line fails (`sscanf`
does not return 1) and the allocation of the bare list header is granted,
`parseInputData` returns the list of length 0 without records, whatever lines
follow the header. -/
theorem parseInputData_bad_header {F : Type} [Zero F] (env : Libc F) (filePath : List Char)
    (header : List Char) (data : List (List Char))
    (hheader : env.scanSize header = none)
    (hmalloc : env.malloc sizeofGeocoordinateList = true) :
    parseInputData env filePath (some (header :: data)) = .returned ⟨0, []⟩ := by
  have halloc : allocate env 0 = .returned ([] : List (Vector3 F)) := by
    have h := allocate_fits env 0 (by decide) (by simpa using hmalloc)
    simpa using h
  cases data with
  | nil => simp only [parseInputData, readHeader, hheader, halloc, Outcome.bind, readRecords]
  | cons inputLine rest =>
    simp only [parseInputData, readHeader, hheader, halloc, Outcome.bind, readRecords,
      ge_iff_le, le_refl, if_true]

/-- C5 (witness).  The header `count: 3` is no number; three data lines follow. -/
theorem parseInputData_bad_header_witness :
    (decimalLibc 0).scanSize "count: 3\n".toList = none ∧
    (decimalLibc 0).malloc sizeofGeocoordinateList = true ∧
    parseInputData (decimalLibc 0) "gps.txt".toList
      (some ("count: 3\n".toList ::
        ["V(1, 2, 3)\n".toList, "V(4, 5, 6)\n".toList, "V(7, 8, 9)\n".toList]))
      = .returned ⟨0, []⟩ :=
  ⟨by decide, rfl,
    parseInputData_bad_header (decimalLibc 0) "gps.txt".toList "count: 3\n".toList
      ["V(1, 2, 3)\n".toList, "V(4, 5, 6)\n".toList, "V(7, 8, 9)\n".toList] (by decide) rfl⟩

/-- C10 (the code at the failing input).  When the file cannot be opened, the
first statement of the branch is `fclose` on the null pointer: the call has no
defined behaviour, and neither the diagnostic nor `exit(EXIT_FAILURE)` is
reached in a defined way. -/
theorem parseInputData_unopened_file {F : Type} [Zero F] (env : Libc F)
    (filePath : List Char) :
    parseInputData env filePath none = .undefined := by
  rfl

/-! ## Lemmas on the trajectory advance -/

theorem toSizeT_natCast (i : Nat) (hi : i < SIZE) : toSizeT (i : Int) = i := by
  unfold toSizeT
  unfold SIZE at hi ⊢
  omega

theorem lengthMinusOne_of_pos (length : Nat) (hpos : 1 ≤ length) (hsize : length < SIZE) :
    lengthMinusOne length = length - 1 := by
  unfold lengthMinusOne
  unfold SIZE at hsize ⊢
  omega

theorem advance_of_lt (length i : Nat) (hpos : 1 ≤ length) (hmax : length ≤ 2 ^ 31)
    (hi : i < length) :
    advance length (i : Int) = .returned (((i + 1) % length : Nat) : Int) := by
  have hsize : length < SIZE := by unfold SIZE; omega
  have hs : toSizeT (i : Int) = i := toSizeT_natCast i (by omega)
  have hl : lengthMinusOne length = length - 1 := lengthMinusOne_of_pos length hpos hsize
  unfold advance
  rw [hs, hl]
  by_cases h : i < length - 1
  · have hint : (i : Int) + 1 ≤ INT_MAX := by unfold INT_MAX; omega
    rw [if_pos h, if_pos hint, Nat.mod_eq_of_lt (by omega)]
    simp
  · have hlast : i + 1 = length := by omega
    rw [if_neg h, hlast, Nat.mod_self]
    simp

theorem advanceN_zero (length : Nat) (i : Int) : advanceN length 0 i = .returned i := rfl

theorem advanceN_step (length : Nat) (k : Nat) (i : Int) :
    advanceN length (k + 1) i = (advance length i).bind (advanceN length k) := rfl

theorem advanceN_closed (length : Nat) (hpos : 1 ≤ length) (hmax : length ≤ 2 ^ 31) :
    ∀ (k m : Nat), advanceN length k ((m % length : Nat) : Int)
      = .returned (((m + k) % length : Nat) : Int) := by
  intro k
  induction k with
  | zero => intro m; rw [advanceN_zero, Nat.add_zero]
  | succ k ih =>
    intro m
    have hlt : m % length < length := Nat.mod_lt _ (by omega)
    have hstep := advance_of_lt length (m % length) hpos hmax hlt
    rw [Nat.mod_add_mod] at hstep
    rw [advanceN_step, hstep, Outcome.bind_returned]
    rw [ih (m + 1)]
    have : m + 1 + k = m + (k + 1) := by omega
    rw [this]

theorem advanceN_from_zero (length : Nat) (hpos : 1 ≤ length) (hmax : length ≤ 2 ^ 31)
    (k : Nat) : advanceN length k 0 = .returned ((k % length : Nat) : Int) := by
  have h := advanceN_closed length hpos hmax k 0
  simpa using h

/-- Below the largest `int` and below the last index the advance is a plain
increment. -/
theorem advanceN_linear (length : Nat) (hsize : length < SIZE) :
    ∀ (k : Nat) (i : Int), 0 ≤ i → i + k ≤ INT_MAX → i + k < length →
      advanceN length k i = .returned (i + k) := by
  intro k
  induction k with
  | zero => intro i _ _ _; rw [advanceN_zero]; simp
  | succ k ih =>
    intro i h0 hmax hlen
    have hs : toSizeT i = i.toNat := by
      unfold toSizeT
      unfold SIZE at hsize ⊢
      unfold INT_MAX at hmax
      omega
    have hl : lengthMinusOne length = length - 1 :=
      lengthMinusOne_of_pos length (by omega) hsize
    have hcmp : toSizeT i < lengthMinusOne length := by rw [hs, hl]; omega
    have hint : i + 1 ≤ INT_MAX := by
      unfold INT_MAX at hmax ⊢
      omega
    have hstep : advance length i = .returned (i + 1) := by
      unfold advance
      rw [if_pos hcmp, if_pos hint]
    rw [advanceN_step, hstep, Outcome.bind_returned]
    rw [ih (i + 1) (by omega) (by push_cast at hmax ⊢; omega) (by push_cast at hlen ⊢; omega)]
    have hsum : i + 1 + (k : Int) = i + ((k + 1 : Nat) : Int) := by push_cast; ring
    rw [hsum]

/-- A record list longer than 2 ^ 31: the increment at the largest `int`
overflows. -/
theorem advance_overflows (length : Nat) (hlen : 2 ^ 31 < length) (hsize : length < SIZE) :
    advance length INT_MAX = .undefined := by
  have hs : toSizeT INT_MAX = 2 ^ 31 - 1 := by
    unfold toSizeT INT_MAX SIZE
    omega
  have hl : lengthMinusOne length = length - 1 :=
    lengthMinusOne_of_pos length (by omega) hsize
  have hcmp : toSizeT INT_MAX < lengthMinusOne length := by rw [hs, hl]; omega
  have hint : ¬ (INT_MAX + 1 ≤ INT_MAX) := by omega
  unfold advance
  rw [if_pos hcmp, if_neg hint]

theorem advanceN_succ_last (length : Nat) :
    ∀ (k : Nat) (i : Int), advanceN length (k + 1) i
      = (advanceN length k i).bind (advance length) := by
  intro k
  induction k with
  | zero =>
    intro i
    rw [advanceN_step, advanceN_zero, Outcome.bind_returned]
    cases h : advance length i with
    | returned next => rw [Outcome.bind_returned, advanceN_zero]
    | exited st e => rw [Outcome.bind_exited]
    | undefined => rw [Outcome.bind_undefined]
  | succ k ih =>
    intro i
    rw [advanceN_step, advanceN_step length k i]
    cases h : advance length i with
    | returned next => rw [Outcome.bind_returned, Outcome.bind_returned, ih next]
    | exited st e => rw [Outcome.bind_exited, Outcome.bind_exited, Outcome.bind_exited]
    | undefined => rw [Outcome.bind_undefined, Outcome.bind_undefined, Outcome.bind_undefined]

theorem advanceN_overflows (length frames : Nat) (hlen : 2 ^ 31 < length)
    (hsize : length < SIZE) (hframes : (frames : Int) = INT_MAX + 1) :
    advanceN length frames 0 = .undefined := by
  cases frames with
  | zero => unfold INT_MAX at hframes; omega
  | succ k =>
    have hk : (0 : Int) + (k : Int) = INT_MAX := by push_cast at hframes; omega
    have hlin := advanceN_linear length hsize k 0 (le_refl 0) (le_of_eq hk)
      (by unfold INT_MAX at hk; omega)
    rw [advanceN_succ_last, hlin, Outcome.bind_returned, hk]
    exact advance_overflows length hlen hsize

/-! ## Lemmas on the polyline -/

theorem readAt_of_lt {F : Type} (inputData : GeocoordinateList F) (i : Nat)
    (hi : i < inputData.records.length) :
    readAt inputData i = .returned inputData.records[i] := by
  unfold readAt
  rw [List.getElem?_eq_getElem hi]

theorem polylineIndices_from (length : Nat) (hsize : length < SIZE) :
    ∀ (k i : Nat), i + k + 1 = length →
      polylineIndices length i = .returned ((List.range' i k).map fun j => (j, j + 1)) := by
  intro k
  induction k with
  | zero =>
    intro i h
    have hl : lengthMinusOne length = length - 1 :=
      lengthMinusOne_of_pos length (by omega) hsize
    have h1 : i < length := by omega
    have h2 : i = lengthMinusOne length := by omega
    have h3 : ¬ (i + 1 < length) := by omega
    rw [polylineIndices, if_pos h1, if_pos h2, polylineIndices, if_neg h3]
    rfl
  | succ k ih =>
    intro i h
    have hl : lengthMinusOne length = length - 1 :=
      lengthMinusOne_of_pos length (by omega) hsize
    have h1 : i < length := by omega
    have h2 : ¬ (i = lengthMinusOne length) := by omega
    have h3 : ¬ (length = 0) := by omega
    have hmod : (i + 1) % SIZE % length = i + 1 := by
      rw [Nat.mod_eq_of_lt (by omega : i + 1 < SIZE),
        Nat.mod_eq_of_lt (by omega : i + 1 < length)]
    rw [polylineIndices, if_pos h1, if_neg h2, if_neg h3, ih (i + 1) (by omega), hmod]
    rfl

theorem readSegments_consecutive {F : Type} (inputData : GeocoordinateList F) :
    ∀ (k i : Nat), i + k + 1 = inputData.records.length →
      readSegments inputData ((List.range' i k).map fun j => (j, j + 1))
        = .returned ((inputData.records.drop i).zip (inputData.records.drop (i + 1))) := by
  intro k
  induction k with
  | zero =>
    intro i h
    rw [List.drop_eq_nil_of_le (by omega : inputData.records.length ≤ i + 1), List.zip_nil_right]
    rfl
  | succ k ih =>
    intro i h
    have h1 : i < inputData.records.length := by omega
    have h2 : i + 1 < inputData.records.length := by omega
    rw [List.drop_eq_getElem_cons h1, List.drop_eq_getElem_cons h2, List.zip_cons_cons,
      ← List.drop_eq_getElem_cons h2]
    show (readSegment inputData (i, i + 1)).bind _ = _
    unfold readSegment
    rw [readAt_of_lt inputData i h1, Outcome.bind_returned, readAt_of_lt inputData (i + 1) h2,
      Outcome.bind_returned, Outcome.bind_returned, ih (i + 1) (by omega),
      Outcome.bind_returned]

theorem drawPolyline_eq {F : Type} (inputData : GeocoordinateList F)
    (hslots : inputData.records.length = inputData.length)
    (hsize : inputData.length < SIZE) :
    drawPolyline inputData = .returned (inputData.records.zip inputData.records.tail) := by
  unfold drawPolyline
  cases hlen : inputData.length with
  | zero =>
    have hnil : inputData.records = [] := List.length_eq_zero.mp (by omega)
    rw [polylineIndices, if_neg (lt_irrefl 0), Outcome.bind_returned, hnil]
    rfl
  | succ n =>
    rw [polylineIndices_from (n + 1) (by omega) n 0 (by omega), Outcome.bind_returned,
      readSegments_consecutive inputData n 0 (by omega), List.drop_zero, zero_add,
      List.drop_one]

/-! ## The playback loop -/

/-- C6 (counterexample).  With 2 ^ 31 + 1 records the index reaches the largest
`int` after 2 ^ 31 - 1 frames, still below the last index; the increment of the
next frame overflows, and the index sequence has no defined continuation. -/
theorem advanceN_int_overflow : advanceN (2 ^ 31 + 1) (2 ^ 31) 0 = .undefined :=
  advanceN_overflows (2 ^ 31 + 1) (2 ^ 31) (by norm_num) (by unfold SIZE; norm_num)
    (by unfold INT_MAX; norm_num)

/-- C6 (amended).  For every count from 1 to 2 ^ 31 the index after `k` frames,
started from 0, is `k % count`.  Hence any `count` consecutive frames visit
each index below `count` exactly once, the sequence repeats after `count`
frames, and after fewer frames it is not back at its start: the period is
exactly `count`. -/
theorem advanceN_cycle (count : Nat) (hpos : 1 ≤ count) (hmax : count ≤ 2 ^ 31) :
    (∀ k, advanceN count k 0 = .returned ((k % count : Nat) : Int)) ∧
    (∀ (f j : Nat), j < count →
      ∃! t, t < count ∧ advanceN count (f + t) 0 = .returned (j : Int)) ∧
    (∀ k, advanceN count (k + count) 0 = advanceN count k 0) ∧
    (∀ p, 0 < p → p < count → advanceN count p 0 ≠ advanceN count 0 0) := by
  have hform := advanceN_from_zero count hpos hmax
  have hinj : ∀ a b : Nat, (Outcome.returned (a : Int) : Outcome Int) = .returned (b : Int) →
      a = b := by
    intro a b h
    injection h with h
    exact_mod_cast h
  refine ⟨hform, ?_, ?_, ?_⟩
  · intro f j hj
    refine ⟨(j + count - f % count) % count, ⟨Nat.mod_lt _ (by omega), ?_⟩, ?_⟩
    · rw [hform]
      congr 2
      have hf : f % count < count := Nat.mod_lt _ (by omega)
      rw [Nat.add_mod_mod, ← Nat.mod_add_mod,
        show f % count + (j + count - f % count) = j + count by omega,
        Nat.add_mod_right, Nat.mod_eq_of_lt hj]
    · rintro t ⟨ht, hret⟩
      rw [hform] at hret
      have hmod : (f + t) % count = j := hinj _ _ hret
      have hf : f % count < count := Nat.mod_lt _ (by omega)
      have hsplit : (f % count + t) % count = j := by
        rw [← hmod, Nat.mod_add_mod]
      by_cases hc : f % count + t < count
      · rw [Nat.mod_eq_of_lt hc] at hsplit
        rw [show j + count - f % count = t + count by omega, Nat.add_mod_right,
          Nat.mod_eq_of_lt ht]
      · have hsub : (f % count + t) % count = f % count + t - count := by
          rw [Nat.mod_eq_sub_mod (by omega), Nat.mod_eq_of_lt (by omega)]
        rw [hsub] at hsplit
        rw [show j + count - f % count = t by omega, Nat.mod_eq_of_lt ht]
  · intro k
    rw [hform, hform, Nat.add_mod_right]
  · intro p hp0 hpc h
    rw [hform, hform, Nat.mod_eq_of_lt hpc, Nat.zero_mod] at h
    have := hinj _ _ h
    omega

/-- C6 (witness).  Three records. -/
theorem advanceN_cycle_witness :
    1 ≤ 3 ∧ 3 ≤ 2 ^ 31 ∧
    (∀ k, advanceN 3 k 0 = .returned ((k % 3 : Nat) : Int)) ∧
    (∀ (f j : Nat), j < 3 → ∃! t, t < 3 ∧ advanceN 3 (f + t) 0 = .returned (j : Int)) ∧
    (∀ k, advanceN 3 (k + 3) 0 = advanceN 3 k 0) ∧
    (∀ p, 0 < p → p < 3 → advanceN 3 p 0 ≠ advanceN 3 0 0) :=
  ⟨by decide, by decide, advanceN_cycle 3 (by decide) (by decide)⟩

/-- C7 (counterexample).  With 2 ^ 31 + 1 records the index 2 ^ 31 - 1 is reached
from 0 and lies within the bounds, and the advance of the next frame is a signed
overflow: the bounds are not preserved by that frame. -/
theorem advance_leaves_bounds :
    advanceN (2 ^ 31 + 1) (2 ^ 31 - 1) 0 = .returned INT_MAX ∧
    0 ≤ INT_MAX ∧ INT_MAX < ((2 ^ 31 + 1 : Nat) : Int) ∧
    advance (2 ^ 31 + 1) INT_MAX = .undefined := by
  refine ⟨?_, by unfold INT_MAX; norm_num, by unfold INT_MAX; norm_num, ?_⟩
  · have h := advanceN_linear (2 ^ 31 + 1) (by unfold SIZE; norm_num) (2 ^ 31 - 1) 0
      (le_refl 0) (by unfold INT_MAX; norm_num) (by norm_num)
    rw [h]
    have hval : (0 : Int) + ((2 ^ 31 - 1 : Nat) : Int) = INT_MAX := by
      unfold INT_MAX
      norm_num
    rw [hval]
  · exact advance_overflows (2 ^ 31 + 1) (by norm_num) (by unfold SIZE; norm_num)

/-- C7 (amended).  For a record list with between 1 and 2 ^ 31 records: the
initial index 0 is within the bounds; from an index within the bounds the advance
of a frame returns an index within the bounds; so the index is within the bounds
after every number of frames; and, the `length` records being allocated, the
read of the vehicle draw at an index within the bounds succeeds. -/
theorem vehiclePositionIndex_in_bounds {F : Type} (inputData : GeocoordinateList F)
    (hpos : 1 ≤ inputData.length) (hmax : inputData.length ≤ 2 ^ 31) :
    ((0 : Int) ≤ 0 ∧ (0 : Int) < inputData.length) ∧
    (∀ i : Int, 0 ≤ i → i < inputData.length →
      ∃ next, advance inputData.length i = .returned next ∧
        0 ≤ next ∧ next < inputData.length) ∧
    (∀ k : Nat, ∃ i, advanceN inputData.length k 0 = .returned i ∧
        0 ≤ i ∧ i < inputData.length) ∧
    (inputData.records.length = inputData.length →
      ∀ i : Int, 0 ≤ i → i < inputData.length →
        ∃ r, readRecord inputData i = .returned r ∧
          inputData.records[i.toNat]? = some r) := by
  refine ⟨⟨le_refl 0, by omega⟩, ?_, ?_, ?_⟩
  · intro i h0 hi
    have hcast : i = ((i.toNat : Nat) : Int) := by omega
    have hlt : i.toNat < inputData.length := by omega
    have hnext : (i.toNat + 1) % inputData.length < inputData.length :=
      Nat.mod_lt _ (by omega)
    refine ⟨(((i.toNat + 1) % inputData.length : Nat) : Int), ?_, Int.natCast_nonneg _,
      by exact_mod_cast hnext⟩
    rw [hcast]
    exact advance_of_lt inputData.length i.toNat hpos hmax hlt
  · intro k
    have hk : k % inputData.length < inputData.length := Nat.mod_lt _ (by omega)
    exact ⟨((k % inputData.length : Nat) : Int),
      advanceN_from_zero inputData.length hpos hmax k, Int.natCast_nonneg _,
      by exact_mod_cast hk⟩
  · intro hslots i h0 hi
    have hlt : i.toNat < inputData.records.length := by omega
    refine ⟨inputData.records[i.toNat], ?_, List.getElem?_eq_getElem hlt⟩
    unfold readRecord
    rw [if_pos h0]
    exact readAt_of_lt inputData i.toNat hlt

/-- C7 (witness).  A list of two records. -/
theorem vehiclePositionIndex_in_bounds_witness :
    (1 ≤ 2 ∧ 2 ≤ 2 ^ 31) ∧
    ((0 : Int) ≤ 0 ∧ (0 : Int) < (2 : Nat)) ∧
    (∀ i : Int, 0 ≤ i → i < (2 : Nat) →
      ∃ next, advance 2 i = .returned next ∧ 0 ≤ next ∧ next < (2 : Nat)) ∧
    (∀ k : Nat, ∃ i, advanceN 2 k 0 = .returned i ∧ 0 ≤ i ∧ i < (2 : Nat)) ∧
    ([(⟨1, 2, 3⟩ : Vector3 Int), ⟨4, 5, 6⟩].length = 2 →
      ∀ i : Int, 0 ≤ i → i < (2 : Nat) →
        ∃ r, readRecord (⟨2, [⟨1, 2, 3⟩, ⟨4, 5, 6⟩]⟩ : GeocoordinateList Int) i = .returned r ∧
          [(⟨1, 2, 3⟩ : Vector3 Int), ⟨4, 5, 6⟩][i.toNat]? = some r) :=
  ⟨⟨by decide, by decide⟩,
    vehiclePositionIndex_in_bounds (⟨2, [⟨1, 2, 3⟩, ⟨4, 5, 6⟩]⟩ : GeocoordinateList Int)
      (by decide) (by decide)⟩

/-- C9 (the code at the failing input).  The file with the header 0 gives the
empty list.  In the first frame `length - 1` wraps to the largest `size_t`, the
index advances from 0 to 1, and the vehicle draw reads `records[1]` of a list
without records: the frame has no defined behaviour.  The polyline of the empty
list has no segment. -/
theorem frame_empty_list :
    parseInputData (decimalLibc 0) "gps.txt".toList (some ["0\n".toList]) = .returned ⟨0, []⟩ ∧
    advance 0 0 = .returned 1 ∧
    readRecord (⟨0, []⟩ : GeocoordinateList Int) 1 = .undefined ∧
    frame (⟨0, []⟩ : GeocoordinateList Int) 0 = .undefined ∧
    drawPolyline (⟨0, []⟩ : GeocoordinateList Int) = .returned [] := by
  have hadv : advance 0 0 = .returned 1 := by decide
  refine ⟨by decide, hadv, by decide, ?_, ?_⟩
  · unfold frame
    rw [hadv, Outcome.bind_returned]
    rfl
  · exact drawPolyline_eq (⟨0, []⟩ : GeocoordinateList Int) rfl (by decide)

end Visualizer
